import Mathlib

/-!
Verification of the `time_series_analysis` repository.

This file shallowly embeds the parts of the repository that the checked
claims are about:

* `compute_returns` and `DailyReturnsCalculator.calculate`
  (`src/time_series_analysis/calculators/daily_returns.py`);
* `CalculatorBase.execute` (`src/time_series_analysis/calculators/base.py`);
* `BaseConfig` construction (`src/time_series_analysis/calculator_config/base.py`);
* the `Metrics` column-derivation steps (`calculations.py`).

Modelling conventions:

* A polars `Float64` cell is `Option FVal`: `none` is a null, and `FVal`
  carries either a finite rational or one of the IEEE special values
  (`+inf`, `-inf`, `NaN`).  The natural logarithm on positive rationals is
  not rational, so the (strictly monotone-irrelevant) map `ln : ℚ → ℚ` is
  passed as a parameter wherever the code calls `.log()`; likewise a
  square-root map `rsqrt` where the code computes `** 0.5` / `.sqrt()`.
  All structural behaviour (null propagation, partitioning, window shifts,
  division by zero, log of zero/negative) is embedded exactly.
* A price panel is a `List Row` in frame row order; `shift(1).over("TICKER")`
  becomes "value of the nearest preceding row with the same ticker".
* Dates are day numbers (`ℤ`); `timedelta(days=7)` is `7`.
* `datetime` values are a naive clock reading plus an optional UTC offset.
-/

namespace TSA

/-- A non-null polars `Float64` value: a finite rational or an IEEE special. -/
inductive FVal where
  | fin (q : ℚ)
  | pinf
  | ninf
  | nan
deriving DecidableEq

/-- A nullable `Float64` cell. -/
abbrev Cell := Option FVal

/-- IEEE subtraction on non-null float values. -/
def fsub : FVal → FVal → FVal
  | .nan, _ => .nan
  | _, .nan => .nan
  | .pinf, .pinf => .nan
  | .pinf, _ => .pinf
  | .ninf, .ninf => .nan
  | .ninf, _ => .ninf
  | .fin _, .pinf => .ninf
  | .fin _, .ninf => .pinf
  | .fin a, .fin b => .fin (a - b)

/-- IEEE division on non-null float values (`x / 0` gives a signed infinity,
`0 / 0` gives `NaN`). -/
def fdiv : FVal → FVal → FVal
  | .nan, _ => .nan
  | _, .nan => .nan
  | .pinf, .pinf => .nan
  | .pinf, .ninf => .nan
  | .ninf, .pinf => .nan
  | .ninf, .ninf => .nan
  | .pinf, .fin b => if b < 0 then .ninf else .pinf
  | .ninf, .fin b => if b < 0 then .pinf else .ninf
  | .fin _, .pinf => .fin 0
  | .fin _, .ninf => .fin 0
  | .fin a, .fin b =>
      if b = 0 then (if a = 0 then .nan else if 0 < a then .pinf else .ninf)
      else .fin (a / b)

/-- IEEE natural logarithm on non-null float values; `ln` interprets the
logarithm on positive rationals.  `log 0 = -inf`, `log` of a negative is
`NaN`. -/
def flog (ln : ℚ → ℚ) : FVal → FVal
  | .nan => .nan
  | .pinf => .pinf
  | .ninf => .nan
  | .fin a => if 0 < a then .fin (ln a) else if a = 0 then .ninf else .nan

/-- Null-propagating subtraction of two cells. -/
def cellSub : Cell → Cell → Cell
  | some a, some b => some (fsub a b)
  | _, _ => none

/-- Null-propagating division of two cells. -/
def cellDiv : Cell → Cell → Cell
  | some a, some b => some (fdiv a b)
  | _, _ => none

/-- Null-propagating logarithm of a cell. -/
def cellLog (ln : ℚ → ℚ) : Cell → Cell
  | some a => some (flog ln a)
  | none => none

/-- One row of the price panel handed to `compute_returns`
(`BUSINESS_DATE`, `TICKER`, `CLOSE`). -/
structure Row where
  date : ℤ
  ticker : String
  close : Cell
deriving DecidableEq

/-- One row of the output of `compute_returns`: the input row plus the two
return columns (`PREV_CLOSE` is dropped by the source). -/
structure RowOut where
  date : ℤ
  ticker : String
  close : Cell
  LOG_RETURN : Cell
  ARITHMETIC_RETURN : Cell
deriving DecidableEq

/-- The price-panel part of an output row. -/
def RowOut.base (o : RowOut) : Row := ⟨o.date, o.ticker, o.close⟩

/-- `pl.col("CLOSE").shift(1).over("TICKER")` at one row: the close cell of
the nearest preceding row with the same ticker (`seen` lists the preceding
rows, most recent first); null when no such row exists. -/
def prevCellIn (t : String) (seen : List Row) : Cell :=
  match (seen.filter (fun r => decide (r.ticker = t))).head? with
  | some p => p.close
  | none => none

/-- Build an output row from an input row and its `PREV_CLOSE` cell:
`LOG_RETURN = CLOSE.log() - PREV_CLOSE.log()` and
`ARITHMETIC_RETURN = (CLOSE - PREV_CLOSE) / PREV_CLOSE`. -/
def mkOut (ln : ℚ → ℚ) (r : Row) (prev : Cell) : RowOut :=
  { date := r.date
    ticker := r.ticker
    close := r.close
    LOG_RETURN := cellSub (cellLog ln r.close) (cellLog ln prev)
    ARITHMETIC_RETURN := cellDiv (cellSub r.close prev) prev }

/-- Row-by-row worker for `compute_returns`; `seen` holds the already
processed rows, most recent first. -/
def computeAux (ln : ℚ → ℚ) : List Row → List Row → List RowOut
  | _, [] => []
  | seen, r :: rs => mkOut ln r (prevCellIn r.ticker seen) :: computeAux ln (r :: seen) rs

/-- `compute_returns` of `calculators/daily_returns.py`: add `PREV_CLOSE`
as the per-ticker shifted close, derive `LOG_RETURN` and
`ARITHMETIC_RETURN`, drop `PREV_CLOSE`. -/
def compute_returns (ln : ℚ → ℚ) (df : List Row) : List RowOut :=
  computeAux ln [] df

/-- The sort key of `df.sort("TICKER", "BUSINESS_DATE")`: by ticker, then
by business date. -/
def rowLE (a b : Row) : Prop :=
  if a.ticker = b.ticker then a.date ≤ b.date else a.ticker < b.ticker

instance : DecidableRel rowLE := fun a b => by
  unfold rowLE; infer_instance

/-- `df.sort("TICKER", "BUSINESS_DATE")`. -/
def sortPanel (df : List Row) : List Row := df.insertionSort rowLE

/-- Modelled from the spec: the acquisition collaborator
(`fetch_price_panel`, realised by `YFinanceStockDataCalculator`, whose
network fetch is out of scope) returns the raw price panel holding every
observation of the requested tickers whose business date lies in the
requested inclusive date range, drawn from the full market history
`hist`. -/
def fetchPanel (hist : List Row) (tickers : List String) (s e : ℤ) : List Row :=
  hist.filter (fun r => decide (r.ticker ∈ tickers) && decide (s ≤ r.date) && decide (r.date ≤ e))

/-- `DailyReturnsCalculator._fetch_stock_data`: request the window widened
by `timedelta(days=7)` on the left, then `df.sort("TICKER", "BUSINESS_DATE")`. -/
def fetchStockData (hist : List Row) (tickers : List String) (s e : ℤ) : List Row :=
  sortPanel (fetchPanel hist tickers (s - 7) e)

/-- `DailyReturnsCalculator.calculate`: fetch buffered data, compute
returns, and filter to the configured `[start, end]` inclusive range. -/
def dailyReturnsCalculate (ln : ℚ → ℚ) (hist : List Row) (tickers : List String)
    (s e : ℤ) : List RowOut :=
  (compute_returns ln (fetchStockData hist tickers s e)).filter
    (fun o => decide (s ≤ o.date) && decide (o.date ≤ e))

/-- A Python `datetime`: a naive clock reading together with an optional
UTC offset (`none` models `tzinfo is None`). -/
structure PyDateTime where
  clock : ℤ
  tz : Option ℤ
deriving DecidableEq

/-- `BaseConfig.set_utc_defaults` on one field: a naive datetime gets
`tzinfo=timezone.utc` attached unchanged (`v.replace(tzinfo=timezone.utc)`);
an aware one is converted to the same instant in UTC
(`v.astimezone(timezone.utc)`). -/
def set_utc_default : PyDateTime → PyDateTime
  | ⟨c, none⟩ => ⟨c, some 0⟩
  | ⟨c, some off⟩ => ⟨c - off, some 0⟩

/-- A validated `BaseConfig`: both timestamps already normalized to UTC. -/
structure BaseConfig where
  start : PyDateTime
  end_ : PyDateTime
deriving DecidableEq

/-- `BaseConfig` construction: normalize both fields to UTC
(`set_utc_defaults`, the `mode="before"` validator), then reject when
`start >= end` (`validate_start_before_end`); two UTC datetimes compare by
their clock readings. -/
def mkBaseConfig (s e : PyDateTime) : Except String BaseConfig :=
  if (set_utc_default e).clock ≤ (set_utc_default s).clock then
    Except.error "start must be strictly before end"
  else Except.ok ⟨set_utc_default s, set_utc_default e⟩

/-- The polars data types appearing in the calculators' schemas. -/
inductive DType where
  | date
  | utf8
  | float64
  | int64
deriving DecidableEq

/-- A value held by a generic column: numeric or string. -/
inductive MVal where
  | q (x : ℚ)
  | s (x : String)
deriving DecidableEq

/-- A nullable generic cell. -/
abbrev MCell := Option MVal

/-- A named, typed column of a calculated polars frame. -/
structure PCol where
  name : String
  dtype : DType
  values : List MCell
deriving DecidableEq

/-- The `ValueError` raised by `CalculatorBase.execute`, carrying the
offending column (either `Missing expected column: {col}` or
`Column '{col}' has dtype {actual}, expected {expected}`). -/
inductive SchemaErr where
  | missing (col : String)
  | mismatch (col : String) (actual expected : DType)
deriving DecidableEq

/-- The column an execute-time schema error names. -/
def SchemaErr.col : SchemaErr → String
  | .missing c => c
  | .mismatch c _ _ => c

/-- Look a column up by name in a calculated frame. -/
def findCol (df : List PCol) (n : String) : Option PCol :=
  df.find? (fun c => decide (c.name = n))

/-- The validation loop of `CalculatorBase.execute`: walk the schema in
order; report the first column that is missing or has a mismatched dtype. -/
def checkSchema : List (String × DType) → List PCol → Option SchemaErr
  | [], _ => none
  | (n, t) :: rest, df =>
    match findCol df n with
    | none => some (.missing n)
    | some c => if c.dtype = t then checkSchema rest df else some (.mismatch n c.dtype t)

/-- `CalculatorBase.execute`: run the schema validation over the calculated
frame `df`; on success `df.select(list(schema.keys()))` projects exactly the
schema's columns in schema order. -/
def executeCalc (schema : List (String × DType)) (df : List PCol) :
    Except SchemaErr (List PCol) :=
  match checkSchema schema df with
  | some err => Except.error err
  | none => Except.ok (schema.filterMap (fun nt => findCol df nt.1))

/-- A polars frame as the `Metrics` engine sees it: named columns of
nullable cells, in frame column order. -/
abbrev MFrame := List (String × List MCell)

/-- `pl.col(n)`: resolve a column by name; a missing column raises
`ColumnNotFoundError`. -/
def getCol (df : MFrame) (n : String) : Except String (List MCell) :=
  match df.find? (fun c => decide (c.1 = n)) with
  | some c => Except.ok c.2
  | none => Except.error ("ColumnNotFoundError: " ++ n)

/-- `df.with_columns(n=vals)`: replace the column when the name exists,
otherwise append it. -/
def with_columns (df : MFrame) (n : String) (vals : List MCell) : MFrame :=
  if df.any (fun c => decide (c.1 = n)) then
    df.map (fun c => if c.1 = n then (n, vals) else c)
  else df ++ [(n, vals)]

/-- The numeric content of a generic cell, if any. -/
def cellNum : MCell → Option ℚ
  | some (.q x) => some x
  | _ => none

/-- Apply a numeric unary function elementwise to a cell, propagating
null. -/
def cellMap1 (f : ℚ → ℚ) (c : MCell) : MCell :=
  (cellNum c).map (fun x => MVal.q (f x))

/-- Apply a numeric ternary function to three cells, propagating null. -/
def cellMap3 (f : ℚ → ℚ → ℚ → ℚ) (a b c : MCell) : MCell :=
  match cellNum a, cellNum b, cellNum c with
  | some x, some y, some z => some (.q (f x y z))
  | _, _, _ => none

/-- Zip a numeric ternary function across three columns. -/
def zipCells3 (f : ℚ → ℚ → ℚ → ℚ) : List MCell → List MCell → List MCell → List MCell
  | a :: as, b :: bs, c :: cs => cellMap3 f a b c :: zipCells3 f as bs cs
  | _, _, _ => []

/-- `Expr.mean()`: the mean of the non-null numeric values of a column;
null when there are none. -/
def meanCells (l : List MCell) : MCell :=
  let xs := l.filterMap cellNum
  match xs with
  | [] => none
  | _ => some (.q (xs.sum / xs.length))

/-- `agg(col).over(partition)`: for every row, aggregate the column cells
of the rows whose partition-key cell equals this row's. -/
def overAgg (keys vals : List MCell) (agg : List MCell → MCell) : List MCell :=
  (keys.zip vals).map
    (fun kv => agg (((keys.zip vals).filter (fun kv2 => decide (kv2.1 = kv.1))).map Prod.snd))

namespace Metrics

/-- `Metrics.mean_returns` (`calculations.py`): adds
`MEAN_RETURN = pl.col(log_return_col).mean().over(partition_col)`; the
source defaults are `partition_col="TICKER"`, `log_return_col="LOG_RETURN"`. -/
def mean_returns (df : MFrame) (partition_col log_return_col : String) :
    Except String MFrame := do
  let lv ← getCol df log_return_col
  let pv ← getCol df partition_col
  pure (with_columns df "MEAN_RETURN" (overAgg pv lv meanCells))

/-- `Metrics.annualized_returns` (`calculations.py`): adds
`annualized_return = ((1 + pl.col("mean_return")) ** factor - 1).over(partition_col)`;
the source defaults are `partition_col="Ticker"`, factor `252.0` (embedded
as a natural exponent). -/
def annualized_returns (df : MFrame) (partition_col : String)
    (annualization_factor : ℕ) : Except String MFrame := do
  let mv ← getCol df "mean_return"
  let _ ← getCol df partition_col
  pure (with_columns df "annualized_return"
    (mv.map (cellMap1 (fun m => (1 + m) ^ annualization_factor - 1))))

/-- `Metrics.realized_volatility` (`calculations.py`): adds
`realized_volatility = pl.col("realized_variance").sqrt().over(partition_col)`;
`rsqrt` interprets the square root. -/
def realized_volatility (df : MFrame) (partition_col : String) (rsqrt : ℚ → ℚ) :
    Except String MFrame := do
  let rv ← getCol df "realized_variance"
  let _ ← getCol df partition_col
  pure (with_columns df "realized_volatility" (rv.map (cellMap1 rsqrt)))

/-- `Metrics.annualized_realized_volatility` (`calculations.py`): adds
`annualized_realized_volatility = pl.col("realized_volatility") * (factor ** 0.5)`;
the `partition_col` parameter is unused by the source body. -/
def annualized_realized_volatility (df : MFrame) (partition_col : String)
    (annualization_factor : ℚ) (rsqrt : ℚ → ℚ) : Except String MFrame := do
  let _ := partition_col
  let v ← getCol df "realized_volatility"
  pure (with_columns df "annualized_realized_volatility"
    (v.map (cellMap1 (fun x => x * rsqrt annualization_factor))))

/-- `Metrics.sharpe_ratio` (`calculations.py`): adds
`sharpe_ratio = pl.col("annualized_return") - pl.col("ANNUALIZED_RISK_FREE_RATE") / pl.col("annualized_realized_volatility")`,
with the source's operator precedence kept verbatim; the `partition_col`
parameter is unused by the source body. -/
def sharpe_ratio (df : MFrame) (partition_col : String) : Except String MFrame := do
  let _ := partition_col
  let a ← getCol df "annualized_return"
  let r ← getCol df "ANNUALIZED_RISK_FREE_RATE"
  let v ← getCol df "annualized_realized_volatility"
  pure (with_columns df "sharpe_ratio" (zipCells3 (fun a r v => a - r / v) a r v))

end Metrics

/-- One step of the max-date accumulator used by `chronoPrevRow`. -/
def chronoStep (acc : Option Row) (x : Row) : Option Row :=
  match acc with
  | none => some x
  | some m => if m.date < x.date then some x else some m

/-- Spec-side definition (§4.3 of the spec, for the refinement claim about
row order): the chronologically previous observation of `r`'s instrument —
the row of the same ticker with the greatest date strictly before `r.date`. -/
def chronoPrevRow (rows : List Row) (r : Row) : Option Row :=
  (rows.filter (fun x => decide (x.ticker = r.ticker) && decide (x.date < r.date))).foldl
    chronoStep none

/-- The close cell of the chronologically previous observation (spec-side). -/
def chronoPrevClose (rows : List Row) (r : Row) : Cell :=
  match chronoPrevRow rows r with
  | some p => p.close
  | none => none

/-- The close cell of the last same-ticker row of a list (row order). -/
def lastTickerClose (t : String) (l : List Row) : Cell :=
  match (l.filter (fun r => decide (r.ticker = t))).getLast? with
  | some p => p.close
  | none => none

/-! ### Structural lemmas about `compute_returns` -/

theorem computeAux_append (ln : ℚ → ℚ) (l₁ l₂ seen : List Row) :
    computeAux ln seen (l₁ ++ l₂) = computeAux ln seen l₁ ++ computeAux ln (l₁.reverse ++ seen) l₂ := by
  induction l₁ generalizing seen with
  | nil => simp [computeAux]
  | cons r rs ih => simp [computeAux, ih (r :: seen), List.append_assoc]

theorem computeAux_map_base (ln : ℚ → ℚ) (rest : List Row) :
    ∀ seen, (computeAux ln seen rest).map RowOut.base = rest := by
  induction rest with
  | nil => intro seen; rfl
  | cons r rs ih =>
    intro seen
    simp only [computeAux, List.map_cons, ih (r :: seen)]
    rfl

theorem compute_returns_map_base (ln : ℚ → ℚ) (df : List Row) :
    (compute_returns ln df).map RowOut.base = df :=
  computeAux_map_base ln df []

theorem computeAux_length (ln : ℚ → ℚ) (rest seen : List Row) :
    (computeAux ln seen rest).length = rest.length := by
  have h := congrArg List.length (computeAux_map_base ln rest seen)
  simpa using h

theorem computeAux_get? (ln : ℚ → ℚ) (rest : List Row) :
    ∀ (seen : List Row) (i : ℕ),
      (computeAux ln seen rest).get? i
        = (rest.get? i).map (fun r => mkOut ln r (prevCellIn r.ticker ((rest.take i).reverse ++ seen))) := by
  induction rest with
  | nil => intro seen i; simp [computeAux]
  | cons r rs ih =>
    intro seen i
    cases i with
    | zero => simp [computeAux]
    | succ j =>
      simp only [computeAux, List.get?_cons_succ, List.take_succ_cons, List.reverse_cons,
        List.append_assoc, List.singleton_append]
      exact ih (r :: seen) j

theorem compute_returns_get? (ln : ℚ → ℚ) (df : List Row) (i : ℕ) :
    (compute_returns ln df).get? i
      = (df.get? i).map (fun r => mkOut ln r (lastTickerClose r.ticker (df.take i))) := by
  have h := computeAux_get? ln df [] i
  simp only [compute_returns, h, List.append_nil]
  cases hdf : df.get? i with
  | none => rfl
  | some r =>
    have h2 : prevCellIn r.ticker (df.take i).reverse = lastTickerClose r.ticker (df.take i) := by
      unfold prevCellIn lastTickerClose
      rw [List.filter_reverse, List.head?_reverse]
    simp [h2]

theorem mkOut_ticker (ln : ℚ → ℚ) (r : Row) (p : Cell) : (mkOut ln r p).ticker = r.ticker := rfl

/-- `prevCellIn` only inspects the same-ticker rows of `seen`. -/
theorem prevCellIn_filter (t : String) (seen : List Row) :
    prevCellIn t (seen.filter (fun r => decide (r.ticker = t))) = prevCellIn t seen := by
  unfold prevCellIn
  rw [List.filter_filter]
  simp only [Bool.and_self]

theorem computeAux_filter_ticker (ln : ℚ → ℚ) (t : String) (rest : List Row) :
    ∀ seen : List Row,
      (computeAux ln seen rest).filter (fun o => decide (o.ticker = t))
        = computeAux ln (seen.filter (fun r => decide (r.ticker = t)))
            (rest.filter (fun r => decide (r.ticker = t))) := by
  induction rest with
  | nil => intro seen; simp [computeAux]
  | cons r rs ih =>
    intro seen
    by_cases hr : r.ticker = t
    · subst hr
      simp [computeAux, List.filter_cons, mkOut_ticker, prevCellIn_filter, ih (r :: seen)]
    · simp [computeAux, List.filter_cons, mkOut_ticker, hr, prevCellIn_filter, ih (r :: seen)]

/-- Both return cells of a row whose `PREV_CLOSE` is null are null. -/
theorem mkOut_prev_none (ln : ℚ → ℚ) (r : Row) :
    (mkOut ln r none).LOG_RETURN = none ∧ (mkOut ln r none).ARITHMETIC_RETURN = none := by
  unfold mkOut
  cases r.close <;> exact ⟨rfl, rfl⟩

/-- Both return cells of a row whose own close is null are null. -/
theorem mkOut_close_none (ln : ℚ → ℚ) (r : Row) (p : Cell) (h : r.close = none) :
    (mkOut ln r p).LOG_RETURN = none ∧ (mkOut ln r p).ARITHMETIC_RETURN = none := by
  unfold mkOut
  rw [h]
  exact ⟨rfl, rfl⟩

/-- The return cells of a row with positive finite close and previous close. -/
theorem mkOut_pos (ln : ℚ → ℚ) (r : Row) (c pc : ℚ) (hc : r.close = some (FVal.fin c))
    (hcpos : 0 < c) (hpcpos : 0 < pc) :
    (mkOut ln r (some (FVal.fin pc))).LOG_RETURN = some (FVal.fin (ln c - ln pc)) ∧
    (mkOut ln r (some (FVal.fin pc))).ARITHMETIC_RETURN = some (FVal.fin ((c - pc) / pc)) := by
  constructor <;>
    simp [mkOut, cellLog, cellSub, cellDiv, flog, fsub, fdiv, hc, hcpos, hpcpos, hpcpos.ne']

/-! ### Concrete inputs used by witnesses -/

/-- A placeholder interpretation of the natural logarithm, used only to
instantiate witnesses. -/
def lnZero : ℚ → ℚ := fun _ => 0

/-- The spec's worked example panel: AAPL closes 100, 110, 121 on three
consecutive business days. -/
def wRows : List Row :=
  [⟨6, "AAPL", some (.fin 100)⟩, ⟨7, "AAPL", some (.fin 110)⟩, ⟨8, "AAPL", some (.fin 121)⟩]

/-! ### Claim theorems -/

/-- C5: two-run noninterference of `compute_returns`.  If two price panels
agree on the subsequence of rows of instrument `t` (in particular if one is
obtained from the other by removing all other instruments' rows, or by
permuting them while keeping `t`'s rows in relative order), then the
computed output rows of instrument `t` — including their log and arithmetic
returns — are identical. -/
theorem compute_returns_noninterference (ln : ℚ → ℚ) (t : String) (rows₁ rows₂ : List Row)
    (h : rows₁.filter (fun r => decide (r.ticker = t)) = rows₂.filter (fun r => decide (r.ticker = t))) :
    (compute_returns ln rows₁).filter (fun o => decide (o.ticker = t))
      = (compute_returns ln rows₂).filter (fun o => decide (o.ticker = t)) := by
  unfold compute_returns
  rw [computeAux_filter_ticker, computeAux_filter_ticker, h]

/-- Witness for C5: removing the MSFT row from a two-instrument panel
leaves AAPL's computed returns unchanged. -/
theorem compute_returns_noninterference_witness :
    (([⟨6, "AAPL", some (.fin 100)⟩, ⟨6, "MSFT", some (.fin 200)⟩, ⟨7, "AAPL", some (.fin 110)⟩] : List Row).filter
        (fun r => decide (r.ticker = "AAPL"))
      = ([⟨6, "AAPL", some (.fin 100)⟩, ⟨7, "AAPL", some (.fin 110)⟩] : List Row).filter
        (fun r => decide (r.ticker = "AAPL"))) ∧
    (compute_returns lnZero [⟨6, "AAPL", some (.fin 100)⟩, ⟨6, "MSFT", some (.fin 200)⟩, ⟨7, "AAPL", some (.fin 110)⟩]).filter
        (fun o => decide (o.ticker = "AAPL"))
      = (compute_returns lnZero [⟨6, "AAPL", some (.fin 100)⟩, ⟨7, "AAPL", some (.fin 110)⟩]).filter
        (fun o => decide (o.ticker = "AAPL")) :=
  ⟨by decide, compute_returns_noninterference lnZero "AAPL" _ _ (by decide)⟩

/-- C2: on a panel whose rows are date-sorted within each instrument and
whose closes are positive finite, `compute_returns` returns the same rows
(dates, tickers, closes unchanged); a row with no preceding same-instrument
row has null log and arithmetic returns, and every other row's returns are
`ln close - ln prev_close` and `(close - prev_close) / prev_close`, where
`prev_close` is the close of the previous same-instrument row. -/
theorem compute_returns_sorted_contract (ln : ℚ → ℚ) (rows : List Row)
    (hsort : rows.Pairwise (fun a b => a.ticker = b.ticker → a.date ≤ b.date))
    (hclose : ∀ r ∈ rows, ∃ q : ℚ, r.close = some (FVal.fin q) ∧ 0 < q) :
    ((compute_returns ln rows).map RowOut.base = rows) ∧
    (∀ (i : ℕ) (r : Row), rows.get? i = some r →
      (compute_returns ln rows).get? i
        = some (mkOut ln r (lastTickerClose r.ticker (rows.take i))) ∧
      (((rows.take i).filter (fun x => decide (x.ticker = r.ticker))) = [] →
        (mkOut ln r (lastTickerClose r.ticker (rows.take i))).LOG_RETURN = none ∧
        (mkOut ln r (lastTickerClose r.ticker (rows.take i))).ARITHMETIC_RETURN = none) ∧
      (∀ p : Row, ((rows.take i).filter (fun x => decide (x.ticker = r.ticker))).getLast? = some p →
        ∀ c pc : ℚ, r.close = some (FVal.fin c) → p.close = some (FVal.fin pc) →
          (mkOut ln r (lastTickerClose r.ticker (rows.take i))).LOG_RETURN
            = some (FVal.fin (ln c - ln pc)) ∧
          (mkOut ln r (lastTickerClose r.ticker (rows.take i))).ARITHMETIC_RETURN
            = some (FVal.fin ((c - pc) / pc)))) := by
  refine ⟨compute_returns_map_base ln rows, ?_⟩
  intro i r hi
  refine ⟨by rw [compute_returns_get? ln rows i, hi]; rfl, ?_, ?_⟩
  · intro hfil
    have hnone : lastTickerClose r.ticker (rows.take i) = none := by
      unfold lastTickerClose
      rw [hfil]
      rfl
    rw [hnone]
    exact mkOut_prev_none ln r
  · intro p hp c pc hc hpc
    have hprev : lastTickerClose r.ticker (rows.take i) = p.close := by
      unfold lastTickerClose
      rw [hp]
    have hpmem : p ∈ rows := by
      have h1 : p ∈ (rows.take i).filter (fun x => decide (x.ticker = r.ticker)) :=
        List.mem_of_mem_getLast? hp
      exact List.take_subset i rows (List.mem_of_mem_filter h1)
    obtain ⟨pc', hpc', hpcpos⟩ := hclose p hpmem
    have hpc2 : pc = pc' := by
      rw [hpc] at hpc'
      injection hpc' with h1
      injection h1
    obtain ⟨c', hc', hcpos⟩ := hclose r (List.get?_mem hi)
    have hc2 : c = c' := by
      rw [hc] at hc'
      injection hc' with h1
      injection h1
    rw [hprev, hpc]
    exact mkOut_pos ln r c pc hc (hc2 ▸ hcpos) (hpc2 ▸ hpcpos)

/-- Witness for C2: the spec's AAPL example panel satisfies the hypotheses
and the contract. -/
theorem compute_returns_sorted_contract_witness :
    (wRows.Pairwise (fun a b => a.ticker = b.ticker → a.date ≤ b.date)) ∧
    (∀ r ∈ wRows, ∃ q : ℚ, r.close = some (FVal.fin q) ∧ 0 < q) ∧
    (((compute_returns lnZero wRows).map RowOut.base = wRows) ∧
    (∀ (i : ℕ) (r : Row), wRows.get? i = some r →
      (compute_returns lnZero wRows).get? i
        = some (mkOut lnZero r (lastTickerClose r.ticker (wRows.take i))) ∧
      (((wRows.take i).filter (fun x => decide (x.ticker = r.ticker))) = [] →
        (mkOut lnZero r (lastTickerClose r.ticker (wRows.take i))).LOG_RETURN = none ∧
        (mkOut lnZero r (lastTickerClose r.ticker (wRows.take i))).ARITHMETIC_RETURN = none) ∧
      (∀ p : Row, ((wRows.take i).filter (fun x => decide (x.ticker = r.ticker))).getLast? = some p →
        ∀ c pc : ℚ, r.close = some (FVal.fin c) → p.close = some (FVal.fin pc) →
          (mkOut lnZero r (lastTickerClose r.ticker (wRows.take i))).LOG_RETURN
            = some (FVal.fin (lnZero c - lnZero pc)) ∧
          (mkOut lnZero r (lastTickerClose r.ticker (wRows.take i))).ARITHMETIC_RETURN
            = some (FVal.fin ((c - pc) / pc))))) := by
  have hsort : wRows.Pairwise (fun a b => a.ticker = b.ticker → a.date ≤ b.date) := by decide
  have hclose : ∀ r ∈ wRows, ∃ q : ℚ, r.close = some (FVal.fin q) ∧ 0 < q := by
    intro r hr
    fin_cases hr
    · exact ⟨100, rfl, by decide⟩
    · exact ⟨110, rfl, by decide⟩
    · exact ⟨121, rfl, by decide⟩
  exact ⟨hsort, hclose, compute_returns_sorted_contract lnZero wRows hsort hclose⟩

/-! ### Chronological-order characterisation (C6) -/

theorem chronoFold_from (l : List Row) :
    ∀ m : Row, (∀ y ∈ l, m.date < y.date) →
      l.Pairwise (fun a b => a.date < b.date) →
      l.foldl chronoStep (some m) = (m :: l).getLast? := by
  induction l with
  | nil => intro m _ _; rfl
  | cons y ys ih =>
    intro m hall hpw
    have hy : m.date < y.date := hall y (by simp)
    have hstep : chronoStep (some m) y = some y := by
      show (if m.date < y.date then some y else some m) = some y
      rw [if_pos hy]
    rw [List.foldl_cons, hstep, ih y (List.pairwise_cons.mp hpw).1 (List.pairwise_cons.mp hpw).2]
    rw [List.getLast?_cons_cons]

theorem chronoFold_sorted (l : List Row) (h : l.Pairwise (fun a b => a.date < b.date)) :
    l.foldl chronoStep none = l.getLast? := by
  cases l with
  | nil => rfl
  | cons y ys =>
    rw [List.foldl_cons]
    show ys.foldl chronoStep (some y) = _
    rw [chronoFold_from ys y (List.pairwise_cons.mp h).1 (List.pairwise_cons.mp h).2]

/-- On a strictly date-sorted-within-instrument panel, the spec's
chronologically previous observation coincides with the nearest preceding
same-ticker row in row order. -/
theorem lastTickerClose_eq_chrono (rows : List Row) (i : ℕ) (r : Row)
    (hi : rows.get? i = some r)
    (hsort : rows.Pairwise (fun a b => a.ticker = b.ticker → a.date < b.date)) :
    lastTickerClose r.ticker (rows.take i) = chronoPrevClose rows r := by
  obtain ⟨hlen, hget⟩ := List.get?_eq_some.mp hi
  have hdrop : rows.drop i = r :: rows.drop (i + 1) := by
    rw [← List.get_cons_drop rows ⟨i, hlen⟩, hget]
  have hdecomp : rows.take i ++ r :: rows.drop (i + 1) = rows := by
    rw [← hdrop, List.take_append_drop]
  have hsort' : (rows.take i ++ r :: rows.drop (i + 1)).Pairwise
      (fun a b => a.ticker = b.ticker → a.date < b.date) := by
    rw [hdecomp]; exact hsort
  obtain ⟨hpre, hcons, hrel⟩ := List.pairwise_append.mp hsort'
  have hfil2 : (r :: rows.drop (i + 1)).filter
      (fun x => decide (x.ticker = r.ticker) && decide (x.date < r.date)) = [] := by
    apply List.filter_eq_nil_iff.mpr
    intro x hx
    rcases List.mem_cons.mp hx with rfl | hx
    · simp
    · intro hc
      have h1 := Bool.and_elim_left hc
      have h2 := Bool.and_elim_right hc
      have htick : x.ticker = r.ticker := by simpa using h1
      have hdate : x.date < r.date := by simpa using h2
      have := (List.pairwise_cons.mp hcons).1 x hx htick.symm
      omega
  have hfil1 : (rows.take i).filter
      (fun x => decide (x.ticker = r.ticker) && decide (x.date < r.date))
      = (rows.take i).filter (fun x => decide (x.ticker = r.ticker)) := by
    apply List.filter_congr
    intro x hx
    by_cases htick : x.ticker = r.ticker
    · have hdate : x.date < r.date := hrel x hx r (by simp) htick
      simp [htick, hdate]
    · simp [htick]
  have hpw : ((rows.take i).filter (fun x => decide (x.ticker = r.ticker))).Pairwise
      (fun a b => a.date < b.date) := by
    have h1 : ((rows.take i).filter (fun x => decide (x.ticker = r.ticker))).Pairwise
        (fun a b => a.ticker = b.ticker → a.date < b.date) := hpre.filter _
    refine List.Pairwise.imp_of_mem ?_ h1
    intro a b ha hb hab
    have ha' : a.ticker = r.ticker := by simpa using (List.mem_filter.mp ha).2
    have hb' : b.ticker = r.ticker := by simpa using (List.mem_filter.mp hb).2
    exact hab (ha'.trans hb'.symm)
  have hfilter : rows.filter (fun x => decide (x.ticker = r.ticker) && decide (x.date < r.date))
      = (rows.take i).filter (fun x => decide (x.ticker = r.ticker)) := by
    conv_lhs => rw [← hdecomp]
    rw [List.filter_append, hfil2, List.append_nil, hfil1]
  have hrow : chronoPrevRow rows r
      = ((rows.take i).filter (fun x => decide (x.ticker = r.ticker))).getLast? := by
    unfold chronoPrevRow
    rw [hfilter]
    exact chronoFold_sorted _ hpw
  unfold chronoPrevClose lastTickerClose
  rw [hrow]

/-- C6 (amended): when the input panel is sorted by date ascending within
each instrument — which `DailyReturnsCalculator._fetch_stock_data`
guarantees by sorting on `(TICKER, BUSINESS_DATE)` before computing —
`compute_returns` computes every row's returns against the chronologically
previous observation of the same instrument. -/
theorem compute_returns_chronological_on_sorted (ln : ℚ → ℚ) (rows : List Row)
    (hsort : rows.Pairwise (fun a b => a.ticker = b.ticker → a.date < b.date)) :
    compute_returns ln rows = rows.map (fun r => mkOut ln r (chronoPrevClose rows r)) := by
  apply List.ext
  intro i
  rw [compute_returns_get?, List.get?_map]
  cases hi : rows.get? i with
  | none => rfl
  | some r =>
    have := lastTickerClose_eq_chrono rows i r hi hsort
    simp [this]

/-- Witness for C6 (amended): a date-sorted single-instrument panel. -/
theorem compute_returns_chronological_on_sorted_witness :
    (wRows.Pairwise (fun a b => a.ticker = b.ticker → a.date < b.date)) ∧
    compute_returns lnZero wRows
      = wRows.map (fun r => mkOut lnZero r (chronoPrevClose wRows r)) :=
  ⟨by decide, compute_returns_chronological_on_sorted lnZero wRows (by decide)⟩

/-- Counterexample for C6 as stated: on a panel whose rows are not
date-sorted (AAPL's later date listed first), `compute_returns` does not
compute returns against the chronologically previous observation — the
shifted close follows row order, not date order. -/
theorem compute_returns_not_chronological_cex :
    compute_returns lnZero [⟨2, "A", some (.fin 110)⟩, ⟨1, "A", some (.fin 100)⟩]
      ≠ [⟨2, "A", some (.fin 110)⟩, ⟨1, "A", some (.fin 100)⟩].map
          (fun r => mkOut lnZero r
            (chronoPrevClose [⟨2, "A", some (.fin 110)⟩, ⟨1, "A", some (.fin 100)⟩] r)) := by
  decide

/-! ### Locality of the shifted close (C10) -/

theorem computeAux_cons (ln : ℚ → ℚ) (seen : List Row) (r : Row) (rs : List Row) :
    computeAux ln seen (r :: rs)
      = mkOut ln r (prevCellIn r.ticker seen) :: computeAux ln (r :: seen) rs := rfl

/-- The shifted close ignores a row of a different ticker, whatever its
close cell. -/
theorem prevCellIn_mid (u t : String) (hne : u ≠ t) (L ctx : List Row) (d : ℤ) (c₁ c₂ : Cell) :
    prevCellIn u (L ++ ⟨d, t, c₁⟩ :: ctx) = prevCellIn u (L ++ ⟨d, t, c₂⟩ :: ctx) := by
  unfold prevCellIn
  have h : ∀ c : Cell, (L ++ (⟨d, t, c⟩ : Row) :: ctx).filter (fun r => decide (r.ticker = u))
      = L.filter (fun r => decide (r.ticker = u)) ++ ctx.filter (fun r => decide (r.ticker = u)) := by
    intro c
    rw [List.filter_append, List.filter_cons, if_neg (by simp [Ne.symm hne])]
  rw [h c₁, h c₂]

/-- The shifted close ignores a same-ticker row that is shadowed by a more
recent same-ticker row. -/
theorem prevCellIn_shadow (u t : String) (L ctx : List Row) (d : ℤ) (c₁ c₂ : Cell)
    (hJ : ∃ j ∈ L, j.ticker = t) :
    prevCellIn u (L ++ ⟨d, t, c₁⟩ :: ctx) = prevCellIn u (L ++ ⟨d, t, c₂⟩ :: ctx) := by
  by_cases hu : u = t
  · subst hu
    obtain ⟨j, hjL, hjt⟩ := hJ
    have hne : L.filter (fun r => decide (r.ticker = u)) ≠ [] := by
      intro hnil
      have : j ∈ L.filter (fun r => decide (r.ticker = u)) :=
        List.mem_filter.mpr ⟨hjL, by simp [hjt]⟩
      rw [hnil] at this
      exact absurd this (List.not_mem_nil j)
    unfold prevCellIn
    rw [List.filter_append, List.filter_append, List.head?_append_of_ne_nil _ hne,
      List.head?_append_of_ne_nil _ hne]
  · exact prevCellIn_mid u t hu L ctx d c₁ c₂

theorem computeAux_mid_indep (ln : ℚ → ℚ) (t : String) (d : ℤ) (c₁ c₂ : Cell) (ctx : List Row) :
    ∀ (rest L : List Row), (∀ r ∈ rest, r.ticker ≠ t) →
      computeAux ln (L ++ ⟨d, t, c₁⟩ :: ctx) rest = computeAux ln (L ++ ⟨d, t, c₂⟩ :: ctx) rest := by
  intro rest
  induction rest with
  | nil => intro L _; rfl
  | cons r rs ih =>
    intro L hrest
    rw [computeAux_cons, computeAux_cons,
      prevCellIn_mid r.ticker t (hrest r (by simp)) L ctx d c₁ c₂]
    have := ih (r :: L) (fun x hx => hrest x (by simp [hx]))
    simpa using this

theorem computeAux_shadow_indep (ln : ℚ → ℚ) (t : String) (d : ℤ) (c₁ c₂ : Cell) (ctx : List Row) :
    ∀ (rest L : List Row), (∃ j ∈ L, j.ticker = t) →
      computeAux ln (L ++ ⟨d, t, c₁⟩ :: ctx) rest = computeAux ln (L ++ ⟨d, t, c₂⟩ :: ctx) rest := by
  intro rest
  induction rest with
  | nil => intro L _; rfl
  | cons r rs ih =>
    intro L hJ
    rw [computeAux_cons, computeAux_cons, prevCellIn_shadow r.ticker t L ctx d c₁ c₂ hJ]
    obtain ⟨j, hjL, hjt⟩ := hJ
    have := ih (r :: L) ⟨j, by simp [hjL], hjt⟩
    simpa using this

/-- The shifted close at the first same-ticker match. -/
theorem prevCellIn_first_match (t : String) (X Y : List Row)
    (hX : ∀ r ∈ X, r.ticker ≠ t) (d : ℤ) (c : Cell) :
    prevCellIn t (X ++ ⟨d, t, c⟩ :: Y) = c := by
  unfold prevCellIn
  rw [List.filter_append, List.filter_eq_nil_iff.mpr (by intro a ha; simpa using hX a ha),
    List.nil_append, List.filter_cons, if_pos (by simp)]
  rfl

/-- C10: when a non-first row of an instrument has a null close,
`compute_returns` yields null log and arithmetic returns on that row and on
the immediately following same-instrument row, and every other output row is
unchanged (the output differs from the run where that close is replaced by
any cell `c'` only at those two rows). -/
theorem compute_returns_null_close (ln : ℚ → ℚ) (pre : List Row) (d : ℤ) (t : String)
    (mid : List Row) (dJ : ℤ) (cJ : Cell) (tail : List Row) (c' : Cell)
    (hpre : ∃ r ∈ pre, r.ticker = t) (hmid : ∀ r ∈ mid, r.ticker ≠ t) :
    ∃ (A B C : List RowOut) (oI oJ oI' oJ' : RowOut),
      compute_returns ln (pre ++ ⟨d, t, none⟩ :: (mid ++ ⟨dJ, t, cJ⟩ :: tail))
        = A ++ oI :: (B ++ oJ :: C) ∧
      compute_returns ln (pre ++ ⟨d, t, c'⟩ :: (mid ++ ⟨dJ, t, cJ⟩ :: tail))
        = A ++ oI' :: (B ++ oJ' :: C) ∧
      A.map RowOut.base = pre ∧ B.map RowOut.base = mid ∧ C.map RowOut.base = tail ∧
      oI.LOG_RETURN = none ∧ oI.ARITHMETIC_RETURN = none ∧
      oJ.LOG_RETURN = none ∧ oJ.ARITHMETIC_RETURN = none := by
  have hexp : ∀ cI : Cell,
      compute_returns ln (pre ++ ⟨d, t, cI⟩ :: (mid ++ ⟨dJ, t, cJ⟩ :: tail))
        = computeAux ln [] pre
          ++ mkOut ln ⟨d, t, cI⟩ (prevCellIn t pre.reverse)
            :: (computeAux ln ((⟨d, t, cI⟩ : Row) :: pre.reverse) mid
              ++ mkOut ln ⟨dJ, t, cJ⟩ (prevCellIn t (mid.reverse ++ (⟨d, t, cI⟩ : Row) :: pre.reverse))
                :: computeAux ln ((⟨dJ, t, cJ⟩ : Row) :: (mid.reverse ++ (⟨d, t, cI⟩ : Row) :: pre.reverse)) tail) := by
    intro cI
    unfold compute_returns
    rw [computeAux_append, computeAux_cons, computeAux_append, computeAux_cons]
    simp [List.append_nil]
  have hBeq : computeAux ln ((⟨d, t, none⟩ : Row) :: pre.reverse) mid
      = computeAux ln ((⟨d, t, c'⟩ : Row) :: pre.reverse) mid := by
    have := computeAux_mid_indep ln t d none c' pre.reverse mid [] hmid
    simpa using this
  have hCeq : computeAux ln ((⟨dJ, t, cJ⟩ : Row) :: (mid.reverse ++ (⟨d, t, none⟩ : Row) :: pre.reverse)) tail
      = computeAux ln ((⟨dJ, t, cJ⟩ : Row) :: (mid.reverse ++ (⟨d, t, c'⟩ : Row) :: pre.reverse)) tail := by
    have := computeAux_shadow_indep ln t d none c' pre.reverse tail
      ((⟨dJ, t, cJ⟩ : Row) :: mid.reverse) ⟨⟨dJ, t, cJ⟩, by simp, rfl⟩
    simpa using this
  have hprevJ : prevCellIn t (mid.reverse ++ (⟨d, t, none⟩ : Row) :: pre.reverse) = none := by
    apply prevCellIn_first_match t mid.reverse pre.reverse
    intro r hr
    exact hmid r (List.mem_reverse.mp hr)
  refine ⟨computeAux ln [] pre,
    computeAux ln ((⟨d, t, none⟩ : Row) :: pre.reverse) mid,
    computeAux ln ((⟨dJ, t, cJ⟩ : Row) :: (mid.reverse ++ (⟨d, t, none⟩ : Row) :: pre.reverse)) tail,
    mkOut ln ⟨d, t, none⟩ (prevCellIn t pre.reverse),
    mkOut ln ⟨dJ, t, cJ⟩ none,
    mkOut ln ⟨d, t, c'⟩ (prevCellIn t pre.reverse),
    mkOut ln ⟨dJ, t, cJ⟩ (prevCellIn t (mid.reverse ++ (⟨d, t, c'⟩ : Row) :: pre.reverse)),
    ?_, ?_, ?_, ?_, ?_, ?_, ?_, ?_, ?_⟩
  · rw [hexp none, hprevJ]
  · rw [hexp c', hBeq, hCeq]
  · exact computeAux_map_base ln pre []
  · exact computeAux_map_base ln mid _
  · exact computeAux_map_base ln tail _
  · exact (mkOut_close_none ln ⟨d, t, none⟩ _ rfl).1
  · exact (mkOut_close_none ln ⟨d, t, none⟩ _ rfl).2
  · exact (mkOut_prev_none ln ⟨dJ, t, cJ⟩).1
  · exact (mkOut_prev_none ln ⟨dJ, t, cJ⟩).2

/-- Witness for C10: a three-row single-instrument panel whose middle close
is null. -/
theorem compute_returns_null_close_witness :
    (∃ r ∈ ([⟨1, "A", some (.fin 1)⟩] : List Row), r.ticker = "A") ∧
    (∀ r ∈ ([] : List Row), r.ticker ≠ "A") ∧
    (∃ (A B C : List RowOut) (oI oJ oI' oJ' : RowOut),
      compute_returns lnZero ([⟨1, "A", some (.fin 1)⟩] ++ ⟨2, "A", none⟩ :: ([] ++ ⟨3, "A", some (.fin 2)⟩ :: []))
        = A ++ oI :: (B ++ oJ :: C) ∧
      compute_returns lnZero ([⟨1, "A", some (.fin 1)⟩] ++ ⟨2, "A", some (.fin 5)⟩ :: ([] ++ ⟨3, "A", some (.fin 2)⟩ :: []))
        = A ++ oI' :: (B ++ oJ' :: C) ∧
      A.map RowOut.base = [⟨1, "A", some (.fin 1)⟩] ∧ B.map RowOut.base = [] ∧ C.map RowOut.base = [] ∧
      oI.LOG_RETURN = none ∧ oI.ARITHMETIC_RETURN = none ∧
      oJ.LOG_RETURN = none ∧ oJ.ARITHMETIC_RETURN = none) :=
  ⟨by decide, by decide,
    compute_returns_null_close lnZero [⟨1, "A", some (.fin 1)⟩] 2 "A" [] 3 (some (.fin 2)) []
      (some (.fin 5)) (by decide) (by decide)⟩

/-! ### The buffered daily-returns calculator (C3) -/

theorem rowLE_total : ∀ a b : Row, rowLE a b ∨ rowLE b a := by
  intro a b
  unfold rowLE
  by_cases h : a.ticker = b.ticker
  · rw [if_pos h, if_pos h.symm]
    omega
  · rw [if_neg h, if_neg (fun hh => h hh.symm)]
    rcases lt_trichotomy a.ticker b.ticker with hlt | heq | hgt
    · exact Or.inl hlt
    · exact absurd heq h
    · exact Or.inr hgt

instance : IsTotal Row rowLE := ⟨rowLE_total⟩

theorem rowLE_trans : ∀ a b c : Row, rowLE a b → rowLE b c → rowLE a c := by
  intro a b c hab hbc
  unfold rowLE at *
  by_cases h1 : a.ticker = b.ticker <;> by_cases h2 : b.ticker = c.ticker
  · rw [if_pos h1] at hab
    rw [if_pos h2] at hbc
    rw [if_pos (h1.trans h2)]
    omega
  · rw [if_pos h1] at hab
    rw [if_neg h2] at hbc
    rw [if_neg (fun hac => h2 (h1.symm.trans hac))]
    rw [h1]
    exact hbc
  · rw [if_neg h1] at hab
    rw [if_pos h2] at hbc
    rw [if_neg (fun hac => h1 (hac.trans h2.symm))]
    rw [← h2]
    exact hab
  · rw [if_neg h1] at hab
    rw [if_neg h2] at hbc
    have hlt : a.ticker < c.ticker := lt_trans hab hbc
    rw [if_neg (fun hac => absurd (hac ▸ hlt) (lt_irrefl _))]
    exact hlt

instance : IsTrans Row rowLE := ⟨rowLE_trans⟩

theorem sortPanel_perm (df : List Row) : List.Perm (sortPanel df) df :=
  List.perm_insertionSort rowLE df

theorem mem_sortPanel (r : Row) (df : List Row) : r ∈ sortPanel df ↔ r ∈ df :=
  (sortPanel_perm df).mem_iff

theorem sortPanel_sorted (df : List Row) : List.Sorted rowLE (sortPanel df) :=
  List.sorted_insertionSort rowLE df

theorem mem_fetchPanel (r : Row) (hist : List Row) (tickers : List String) (s e : ℤ) :
    r ∈ fetchPanel hist tickers s e ↔ r ∈ hist ∧ r.ticker ∈ tickers ∧ s ≤ r.date ∧ r.date ≤ e := by
  unfold fetchPanel
  simp [List.mem_filter, and_assoc]

theorem map_filter_comm {α β : Type} (f : α → β) (p : β → Bool) (l : List α) :
    (l.filter (fun x => p (f x))).map f = (l.map f).filter p := by
  induction l with
  | nil => rfl
  | cons a tl ih => by_cases h : p (f a) <;> simp [h, ih]

theorem cellSub_some (a b : FVal) : cellSub (some a) (some b) ≠ none := by
  simp [cellSub]

theorem cellDiv_some (a b : FVal) : cellDiv (some a) (some b) ≠ none := by
  simp [cellDiv]

/-- C3: `DailyReturnsCalculator` requests the buffered window
`[start - 7 days, end]`, computes returns over the sorted buffered panel,
and outputs exactly the computed rows whose business date lies in the
inclusive `[start, end]` window (buffer-only rows are dropped); and when an
instrument `t` has an observation at most 7 days before `start` (and all
its fetched closes are non-null), the first in-window row of `t` — indeed
every in-window row of `t` — carries non-null log and arithmetic returns. -/
theorem daily_returns_buffered_window (ln : ℚ → ℚ) (hist : List Row) (tickers : List String)
    (s e : ℤ) (t : String)
    (ht : t ∈ tickers)
    (hclose : ∀ r ∈ hist, r.close ≠ none)
    (hbuf : ∃ b ∈ hist, b.ticker = t ∧ s - 7 ≤ b.date ∧ b.date < s) :
    ((dailyReturnsCalculate ln hist tickers s e).map RowOut.base
      = (fetchStockData hist tickers s e).filter
          (fun r => decide (s ≤ r.date) && decide (r.date ≤ e))) ∧
    (∀ o ∈ dailyReturnsCalculate ln hist tickers s e, o.ticker = t →
      (∀ o' ∈ dailyReturnsCalculate ln hist tickers s e, o'.ticker = t → o.date ≤ o'.date) →
      o.LOG_RETURN ≠ none ∧ o.ARITHMETIC_RETURN ≠ none) := by
  constructor
  · unfold dailyReturnsCalculate
    have h2 := map_filter_comm RowOut.base (fun r => decide (s ≤ r.date) && decide (r.date ≤ e))
      (compute_returns ln (fetchStockData hist tickers s e))
    rw [compute_returns_map_base] at h2
    exact h2
  · intro o ho hot _
    obtain ⟨ho1, ho2⟩ := List.mem_filter.mp ho
    have hos : s ≤ o.date ∧ o.date ≤ e := by simpa using ho2
    obtain ⟨i, hi⟩ := List.get?_of_mem ho1
    set panel := fetchStockData hist tickers s e with hpanel
    cases hp : panel.get? i with
    | none =>
      rw [compute_returns_get?, hp] at hi
      exact absurd hi (by simp)
    | some r =>
      rw [compute_returns_get?, hp] at hi
      have ho3 : o = mkOut ln r (lastTickerClose r.ticker (panel.take i)) := by
        have := hi.symm
        injection this
      have hrt : r.ticker = t := by rw [← hot, ho3]; rfl
      have hrd : r.date = o.date := by rw [ho3]; rfl
      have hrmem : r ∈ panel := List.get?_mem hp
      obtain ⟨b, hbmem, hbt, hbge, hblt⟩ := hbuf
      have hbfetch : b ∈ fetchPanel hist tickers (s - 7) e := by
        rw [mem_fetchPanel]
        refine ⟨hbmem, by rw [hbt]; exact ht, hbge, ?_⟩
        have := hos.1
        have := hos.2
        omega
      have hbpanel : b ∈ panel := by
        rw [hpanel]
        unfold fetchStockData
        exact (mem_sortPanel b _).mpr hbfetch
      obtain ⟨j, hj⟩ := List.get?_of_mem hbpanel
      obtain ⟨hleni, hgeti⟩ := List.get?_eq_some.mp hp
      obtain ⟨hlenj, hgetj⟩ := List.get?_eq_some.mp hj
      have hsorted : List.Sorted rowLE panel := by
        rw [hpanel]
        unfold fetchStockData
        exact sortPanel_sorted _
      have hbdate : b.date < r.date := by
        have := hos.1
        omega
      have hji : j < i := by
        by_contra hji
        push_neg at hji
        have hne : i ≠ j := by
          intro heq
          rw [heq, hj] at hp
          injection hp with hh
          rw [hh] at hbdate
          exact absurd hbdate (lt_irrefl _)
        have hij : i < j := lt_of_le_of_ne hji hne
        have hrel : rowLE (panel.get ⟨i, hleni⟩) (panel.get ⟨j, hlenj⟩) :=
          hsorted.rel_get_of_lt hij
        rw [hgeti, hgetj] at hrel
        unfold rowLE at hrel
        rw [if_pos (hrt.trans hbt.symm)] at hrel
        omega
      have hbtake : b ∈ panel.take i := by
        have : (panel.take i).get? j = some b := by
          rw [List.get?_take hji]
          exact hj
        exact List.get?_mem this
      have hbfil : b ∈ (panel.take i).filter (fun x => decide (x.ticker = r.ticker)) :=
        List.mem_filter.mpr ⟨hbtake, by simp [hbt, hrt]⟩
      cases hL : ((panel.take i).filter (fun x => decide (x.ticker = r.ticker))).getLast? with
      | none =>
        rw [List.getLast?_eq_none_iff] at hL
        rw [hL] at hbfil
        exact absurd hbfil (List.not_mem_nil b)
      | some p =>
        have hpmem : p ∈ hist := by
          have h1 : p ∈ (panel.take i).filter (fun x => decide (x.ticker = r.ticker)) :=
            List.mem_of_mem_getLast? hL
          have h2 : p ∈ panel := List.take_subset i panel (List.mem_of_mem_filter h1)
          have h3 : p ∈ fetchPanel hist tickers (s - 7) e := by
            rw [hpanel] at h2
            unfold fetchStockData at h2
            exact (mem_sortPanel p _).mp h2
          exact ((mem_fetchPanel p hist tickers (s - 7) e).mp h3).1
        have hrhist : r ∈ hist := by
          have h3 : r ∈ fetchPanel hist tickers (s - 7) e := by
            rw [hpanel] at hrmem
            unfold fetchStockData at hrmem
            exact (mem_sortPanel r _).mp hrmem
          exact ((mem_fetchPanel r hist tickers (s - 7) e).mp h3).1
        obtain ⟨w, hw⟩ := Option.ne_none_iff_exists'.mp (hclose r hrhist)
        obtain ⟨v, hv⟩ := Option.ne_none_iff_exists'.mp (hclose p hpmem)
        have hprev : lastTickerClose r.ticker (panel.take i) = some v := by
          unfold lastTickerClose
          rw [hL]
          exact hv
        rw [ho3]
        unfold mkOut
        constructor
        · show cellSub (cellLog ln r.close) (cellLog ln (lastTickerClose r.ticker (panel.take i))) ≠ none
          rw [hprev, hw]
          exact cellSub_some _ _
        · show cellDiv (cellSub r.close (lastTickerClose r.ticker (panel.take i)))
            (lastTickerClose r.ticker (panel.take i)) ≠ none
          rw [hprev, hw]
          exact cellDiv_some _ _

/-- Witness for C3: one instrument, a buffer-window observation three days
before the window start, and two in-window observations. -/
theorem daily_returns_buffered_window_witness :
    (("A" : String) ∈ ["A"]) ∧
    (∀ r ∈ ([⟨7, "A", some (.fin 1)⟩, ⟨10, "A", some (.fin 2)⟩, ⟨11, "A", some (.fin 3)⟩] : List Row),
      r.close ≠ none) ∧
    (∃ b ∈ ([⟨7, "A", some (.fin 1)⟩, ⟨10, "A", some (.fin 2)⟩, ⟨11, "A", some (.fin 3)⟩] : List Row),
      b.ticker = "A" ∧ 10 - 7 ≤ b.date ∧ b.date < 10) ∧
    (((dailyReturnsCalculate lnZero [⟨7, "A", some (.fin 1)⟩, ⟨10, "A", some (.fin 2)⟩, ⟨11, "A", some (.fin 3)⟩]
          ["A"] 10 12).map RowOut.base
      = (fetchStockData [⟨7, "A", some (.fin 1)⟩, ⟨10, "A", some (.fin 2)⟩, ⟨11, "A", some (.fin 3)⟩]
          ["A"] 10 12).filter
          (fun r => decide (10 ≤ r.date) && decide (r.date ≤ 12))) ∧
    (∀ o ∈ dailyReturnsCalculate lnZero [⟨7, "A", some (.fin 1)⟩, ⟨10, "A", some (.fin 2)⟩, ⟨11, "A", some (.fin 3)⟩]
          ["A"] 10 12, o.ticker = "A" →
      (∀ o' ∈ dailyReturnsCalculate lnZero [⟨7, "A", some (.fin 1)⟩, ⟨10, "A", some (.fin 2)⟩, ⟨11, "A", some (.fin 3)⟩]
          ["A"] 10 12, o'.ticker = "A" → o.date ≤ o'.date) →
      o.LOG_RETURN ≠ none ∧ o.ARITHMETIC_RETURN ≠ none)) :=
  ⟨by decide, by decide, by decide,
    daily_returns_buffered_window lnZero
      [⟨7, "A", some (.fin 1)⟩, ⟨10, "A", some (.fin 2)⟩, ⟨11, "A", some (.fin 3)⟩]
      ["A"] 10 12 "A" (by decide) (by decide) (by decide)⟩

/-! ### Numeric domain edge cases (C9) -/

theorem fsub_nonfin_left (v w : FVal) (hv : ∀ q : ℚ, v ≠ .fin q) :
    ∀ q : ℚ, fsub v w ≠ .fin q := by
  intro q
  cases v <;> cases w <;> simp [fsub] <;> exact fun h => hv _ rfl

theorem fsub_nonfin_right (v w : FVal) (hw : ∀ q : ℚ, w ≠ .fin q) :
    ∀ q : ℚ, fsub v w ≠ .fin q := by
  intro q
  cases v <;> cases w <;> simp [fsub] <;> exact fun h => hw _ rfl

theorem fdiv_zero_nonfin (u : FVal) : ∀ q : ℚ, fdiv u (.fin 0) ≠ .fin q := by
  intro q
  cases u <;> simp [fdiv] <;> split_ifs <;> simp

theorem flog_nonpos_nonfin (ln : ℚ → ℚ) (c : ℚ) (hc : ¬ 0 < c) :
    ∀ q : ℚ, flog ln (.fin c) ≠ .fin q := by
  intro q
  simp only [flog, hc, if_false]
  split_ifs <;> simp

theorem cellSub_nonfin_left (x y : Cell) (hx : ∀ q : ℚ, x ≠ some (.fin q)) :
    ∀ q : ℚ, cellSub x y ≠ some (FVal.fin q) := by
  intro q
  cases x with
  | none => cases y <;> simp [cellSub]
  | some v =>
    cases y with
    | none => simp [cellSub]
    | some w =>
      show some (fsub v w) ≠ some (FVal.fin q)
      exact fun h => fsub_nonfin_left v w (fun p hp => hx p (by rw [hp])) q (Option.some.inj h)

theorem cellSub_nonfin_right (x y : Cell) (hy : ∀ q : ℚ, y ≠ some (.fin q)) :
    ∀ q : ℚ, cellSub x y ≠ some (FVal.fin q) := by
  intro q
  cases x with
  | none => cases y <;> simp [cellSub]
  | some v =>
    cases y with
    | none => simp [cellSub]
    | some w =>
      show some (fsub v w) ≠ some (FVal.fin q)
      exact fun h => fsub_nonfin_right v w (fun p hp => hy p (by rw [hp])) q (Option.some.inj h)

theorem cellDiv_zero_nonfin (x : Cell) :
    ∀ q : ℚ, cellDiv x (some (.fin 0)) ≠ some (FVal.fin q) := by
  intro q
  cases x with
  | none => simp [cellDiv]
  | some u =>
    show some (fdiv u (FVal.fin 0)) ≠ some (FVal.fin q)
    exact fun h => fdiv_zero_nonfin u q (Option.some.inj h)

/-- C9 (amended): `compute_returns` is total (no exception: it returns one
output row per input row, preserving every date, ticker and close cell),
and a numeric domain error never produces a silently clamped finite number:
when a row's previous same-instrument close is `0.0`, its log and
arithmetic return cells are null or a non-finite IEEE value (`±inf` or
`NaN`), and when a row's own close is zero or negative, its log return
cell is null or non-finite. -/
theorem compute_returns_domain_edges (ln : ℚ → ℚ) (rows : List Row) :
    ((compute_returns ln rows).map RowOut.base = rows) ∧
    (∀ (i : ℕ) (r : Row), rows.get? i = some r →
      (lastTickerClose r.ticker (rows.take i) = some (FVal.fin 0) →
        ∃ o, (compute_returns ln rows).get? i = some o ∧
          (∀ q : ℚ, o.LOG_RETURN ≠ some (FVal.fin q)) ∧
          (∀ q : ℚ, o.ARITHMETIC_RETURN ≠ some (FVal.fin q))) ∧
      (∀ c : ℚ, r.close = some (FVal.fin c) → ¬ 0 < c →
        ∃ o, (compute_returns ln rows).get? i = some o ∧
          (∀ q : ℚ, o.LOG_RETURN ≠ some (FVal.fin q)))) := by
  refine ⟨compute_returns_map_base ln rows, ?_⟩
  intro i r hi
  have hchar : (compute_returns ln rows).get? i
      = some (mkOut ln r (lastTickerClose r.ticker (rows.take i))) := by
    rw [compute_returns_get? ln rows i, hi]
    rfl
  constructor
  · intro hprev
    refine ⟨_, hchar, ?_, ?_⟩
    · show ∀ q : ℚ, cellSub (cellLog ln r.close) (cellLog ln (lastTickerClose r.ticker (rows.take i)))
        ≠ some (FVal.fin q)
      rw [hprev]
      apply cellSub_nonfin_right
      intro q
      show some (flog ln (FVal.fin 0)) ≠ some (FVal.fin q)
      exact fun h => flog_nonpos_nonfin ln 0 (lt_irrefl 0) q (Option.some.inj h)
    · show ∀ q : ℚ, cellDiv (cellSub r.close (lastTickerClose r.ticker (rows.take i)))
        (lastTickerClose r.ticker (rows.take i)) ≠ some (FVal.fin q)
      rw [hprev]
      exact cellDiv_zero_nonfin _
  · intro c hc hcpos
    refine ⟨_, hchar, ?_⟩
    show ∀ q : ℚ, cellSub (cellLog ln r.close) (cellLog ln (lastTickerClose r.ticker (rows.take i)))
      ≠ some (FVal.fin q)
    rw [hc]
    apply cellSub_nonfin_left
    intro q
    show some (flog ln (FVal.fin c)) ≠ some (FVal.fin q)
    exact fun h => flog_nonpos_nonfin ln c hcpos q (Option.some.inj h)

/-- Witness for C9 (amended): a panel whose first close is `0.0`. -/
theorem compute_returns_domain_edges_witness :
    (([⟨1, "A", some (.fin 0)⟩, ⟨2, "A", some (.fin 1)⟩] : List Row).get? 1 = some ⟨2, "A", some (.fin 1)⟩) ∧
    (lastTickerClose "A" (([⟨1, "A", some (.fin 0)⟩, ⟨2, "A", some (.fin 1)⟩] : List Row).take 1) = some (FVal.fin 0)) ∧
    (∃ o, (compute_returns lnZero [⟨1, "A", some (.fin 0)⟩, ⟨2, "A", some (.fin 1)⟩]).get? 1 = some o ∧
      (∀ q : ℚ, o.LOG_RETURN ≠ some (FVal.fin q)) ∧
      (∀ q : ℚ, o.ARITHMETIC_RETURN ≠ some (FVal.fin q))) :=
  ⟨by decide, by decide,
    ((compute_returns_domain_edges lnZero [⟨1, "A", some (.fin 0)⟩, ⟨2, "A", some (.fin 1)⟩]).2
      1 ⟨2, "A", some (.fin 1)⟩ (by decide)).1 (by decide)⟩

/-- Counterexample for C9 as stated: with a zero previous close the
arithmetic-return cell becomes `+inf`, which is neither a null nor the
`NaN` marker — the claim's "null or not-a-number" enumeration misses the
infinities. -/
theorem compute_returns_zero_prev_cex :
    (compute_returns lnZero [⟨1, "A", some (.fin 0)⟩, ⟨2, "A", some (.fin 1)⟩]).map
        RowOut.ARITHMETIC_RETURN
      = [none, some FVal.pinf] ∧
    (some FVal.pinf ≠ (none : Cell)) ∧ some FVal.pinf ≠ some FVal.nan := by
  refine ⟨?_, by decide, by decide⟩
  show [none, cellDiv (cellSub (some (FVal.fin 1)) (some (FVal.fin 0))) (some (FVal.fin 0))]
    = [none, some FVal.pinf]
  norm_num [cellDiv, cellSub, fsub, fdiv]

/-! ### Config validation (C7) -/

/-- C7: `BaseConfig` construction first normalizes both timestamps to UTC —
a naive timestamp keeps its clock reading and is tagged UTC, an aware one
is converted to the same instant in UTC — and then accepts exactly when the
normalized start is strictly before the normalized end, failing with a
validation error exactly when normalized `start >= end`. -/
theorem base_config_validation (s e : PyDateTime) :
    ((∀ c : ℤ, set_utc_default ⟨c, none⟩ = ⟨c, some 0⟩) ∧
     (∀ c off : ℤ, set_utc_default ⟨c, some off⟩ = ⟨c - off, some 0⟩)) ∧
    (mkBaseConfig s e = Except.ok ⟨set_utc_default s, set_utc_default e⟩ ↔
      (set_utc_default s).clock < (set_utc_default e).clock) ∧
    ((∃ msg, mkBaseConfig s e = Except.error msg) ↔
      (set_utc_default e).clock ≤ (set_utc_default s).clock) := by
  refine ⟨⟨fun _ => rfl, fun _ _ => rfl⟩, ?_, ?_⟩
  · unfold mkBaseConfig
    by_cases h : (set_utc_default e).clock ≤ (set_utc_default s).clock
    · rw [if_pos h]
      exact ⟨fun hok => absurd hok (by simp), fun hlt => absurd h (by omega)⟩
    · rw [if_neg h]
      exact ⟨fun _ => by omega, fun _ => rfl⟩
  · unfold mkBaseConfig
    by_cases h : (set_utc_default e).clock ≤ (set_utc_default s).clock
    · rw [if_pos h]
      exact ⟨fun _ => h, fun _ => ⟨_, rfl⟩⟩
    · rw [if_neg h]
      exact ⟨fun ⟨_, hmsg⟩ => absurd hmsg (by simp), fun hle => absurd hle h⟩

/-! ### Sharpe ratio precedence (C1) -/

/-- C1 (code evaluation): on a row with `annualized_return = 10`,
`ANNUALIZED_RISK_FREE_RATE = 4` and `annualized_realized_volatility = 2`,
`Metrics.sharpe_ratio` produces `10 - 4 / 2 = 8` — the unparenthesized
form — whereas the claimed formula `(10 - 4) / 2` equals `3`. -/
theorem sharpe_ratio_precedence :
    (Metrics.sharpe_ratio
        [("annualized_return", [some (.q 10)]),
         ("ANNUALIZED_RISK_FREE_RATE", [some (.q 4)]),
         ("annualized_realized_volatility", [some (.q 2)])] "Ticker").bind
      (fun d => getCol d "sharpe_ratio")
      = Except.ok [some (MVal.q (10 - 4 / 2))] ∧
    (10 - 4 / 2 : ℚ) = 8 ∧ ((10 - 4) / 2 : ℚ) = 3 ∧ (8 : ℚ) ≠ 3 := by
  exact ⟨rfl, by norm_num, by norm_num, by norm_num⟩

/-! ### Annualization chain (C8) -/

/-- C8 (code evaluation): `Metrics.mean_returns` writes its result to the
column `MEAN_RETURN`, but `Metrics.annualized_returns` reads the column
`mean_return` (and partitions by the default `Ticker`), so chaining the two
raises `ColumnNotFoundError` instead of adding `(1+mean)^252 - 1`; the
volatility half of the chain does work: `annualized_realized_volatility`
multiplies `realized_volatility` by `sqrt(252)`. -/
theorem metrics_annualization_chain : ∀ rsqrt : ℚ → ℚ,
    ((Metrics.mean_returns [("TICKER", [some (.s "A")]), ("LOG_RETURN", [some (.q 1)])]
          "TICKER" "LOG_RETURN").bind
        (fun d => Metrics.annualized_returns d "Ticker" 252)
      = Except.error "ColumnNotFoundError: mean_return") ∧
    ((Metrics.realized_volatility [("Ticker", [some (.s "A")]), ("realized_variance", [some (.q 4)])]
          "Ticker" rsqrt).bind
        (fun d => (Metrics.annualized_realized_volatility d "Ticker" 252 rsqrt).bind
          (fun d2 => getCol d2 "annualized_realized_volatility"))
      = Except.ok [some (MVal.q (rsqrt 4 * rsqrt 252))]) :=
  fun _ => ⟨rfl, rfl⟩

/-! ### Schema contract of `execute` (C4) -/

/-- A schema entry is violated by a calculated frame when its column is
absent or present with a different dtype. -/
def offendingCol (df : List PCol) (nt : String × DType) : Prop :=
  (∀ c ∈ df, c.name ≠ nt.1) ∨ (∃ c ∈ df, c.name = nt.1 ∧ c.dtype ≠ nt.2)

theorem checkSchema_cons (n : String) (t : DType) (rest : List (String × DType)) (df : List PCol) :
    checkSchema ((n, t) :: rest) df
      = match findCol df n with
        | none => some (.missing n)
        | some c => if c.dtype = t then checkSchema rest df else some (.mismatch n c.dtype t) := rfl

theorem checkSchema_cons_none (n : String) (t : DType) (rest : List (String × DType))
    (df : List PCol) (hf : findCol df n = none) :
    checkSchema ((n, t) :: rest) df = some (.missing n) := by
  rw [checkSchema_cons, hf]

theorem checkSchema_cons_some_eq (n : String) (t : DType) (rest : List (String × DType))
    (df : List PCol) (c : PCol) (hf : findCol df n = some c) (hdt : c.dtype = t) :
    checkSchema ((n, t) :: rest) df = checkSchema rest df := by
  rw [checkSchema_cons, hf]
  exact if_pos hdt

theorem checkSchema_cons_some_ne (n : String) (t : DType) (rest : List (String × DType))
    (df : List PCol) (c : PCol) (hf : findCol df n = some c) (hdt : ¬ c.dtype = t) :
    checkSchema ((n, t) :: rest) df = some (.mismatch n c.dtype t) := by
  rw [checkSchema_cons, hf]
  exact if_neg hdt

theorem executeCalc_of_checkSchema_some (schema : List (String × DType)) (df : List PCol)
    (err : SchemaErr) (h : checkSchema schema df = some err) :
    executeCalc schema df = Except.error err := by
  unfold executeCalc
  rw [h]

theorem executeCalc_of_checkSchema_none (schema : List (String × DType)) (df : List PCol)
    (h : checkSchema schema df = none) :
    executeCalc schema df = Except.ok (schema.filterMap (fun nt => findCol df nt.1)) := by
  unfold executeCalc
  rw [h]

theorem findCol_eq_none (df : List PCol) (n : String) :
    findCol df n = none ↔ ∀ c ∈ df, c.name ≠ n := by
  unfold findCol
  rw [List.find?_eq_none]
  simp

theorem findCol_eq_some (df : List PCol) (n : String) (c : PCol) (h : findCol df n = some c) :
    c ∈ df ∧ c.name = n := by
  refine ⟨List.mem_of_find?_eq_some h, ?_⟩
  have := List.find?_some h
  simpa using this

/-- C4: `execute()` fails if and only if some schema column is absent from
the calculated frame or carries a different dtype; the raised error names
an offending column; and on success the output is exactly the schema's
columns of the calculated frame, in schema order and with the declared
dtypes, every other column being dropped. -/
theorem execute_schema_contract (schema : List (String × DType)) (df : List PCol)
    (hn : (df.map PCol.name).Nodup) :
    ((∃ nt ∈ schema, offendingCol df nt) ↔ ∃ err, executeCalc schema df = Except.error err) ∧
    (∀ err, executeCalc schema df = Except.error err →
      ∃ nt ∈ schema, nt.1 = err.col ∧ offendingCol df nt) ∧
    (∀ out, executeCalc schema df = Except.ok out →
      out.map (fun c => (c.name, c.dtype)) = schema ∧ ∀ c ∈ out, c ∈ df) := by
  induction schema with
  | nil =>
    refine ⟨?_, ?_, ?_⟩
    · simp [executeCalc, checkSchema]
    · intro err herr
      simp [executeCalc, checkSchema] at herr
    · intro out hout
      simp [executeCalc, checkSchema] at hout
      subst hout
      exact ⟨rfl, by simp⟩
  | cons nt rest ih =>
    obtain ⟨n, t⟩ := nt
    cases hf : findCol df n with
    | none =>
      have herr : executeCalc ((n, t) :: rest) df = Except.error (.missing n) :=
        executeCalc_of_checkSchema_some _ _ _ (checkSchema_cons_none n t rest df hf)
      have hoff : offendingCol df (n, t) := Or.inl ((findCol_eq_none df n).mp hf)
      refine ⟨?_, ?_, ?_⟩
      · exact ⟨fun _ => ⟨_, herr⟩, fun _ => ⟨(n, t), by simp, hoff⟩⟩
      · intro err h2
        rw [herr] at h2
        injection h2 with h3
        exact ⟨(n, t), by simp, by rw [← h3]; rfl, hoff⟩
      · intro out hout
        rw [herr] at hout
        exact absurd hout (by simp)
    | some c =>
      obtain ⟨hcmem, hcname⟩ := findCol_eq_some df n c hf
      by_cases hdt : c.dtype = t
      · have hnotoff : ¬ offendingCol df (n, t) := by
          intro hoff
          rcases hoff with hmiss | ⟨c', hc'mem, hc'name, hc'dt⟩
          · exact hmiss c hcmem hcname
          · have : c' = c := List.inj_on_of_nodup_map hn hc'mem hcmem (by rw [hc'name, hcname])
            rw [this] at hc'dt
            exact hc'dt hdt
        have hstep : executeCalc ((n, t) :: rest) df
            = (executeCalc rest df).map (fun out => c :: out) := by
          cases hcheck : checkSchema rest df with
          | some err =>
            rw [executeCalc_of_checkSchema_some _ _ _
                ((checkSchema_cons_some_eq n t rest df c hf hdt).trans hcheck),
              executeCalc_of_checkSchema_some _ _ _ hcheck]
            rfl
          | none =>
            rw [executeCalc_of_checkSchema_none _ _
                ((checkSchema_cons_some_eq n t rest df c hf hdt).trans hcheck),
              executeCalc_of_checkSchema_none _ _ hcheck]
            simp [List.filterMap_cons, hf, Except.map]
        refine ⟨?_, ?_, ?_⟩
        · constructor
          · rintro ⟨nt', hnt', hoff'⟩
            rcases List.mem_cons.mp hnt' with rfl | hnt'
            · exact absurd hoff' hnotoff
            · obtain ⟨err, herr⟩ := (ih.1).mp ⟨nt', hnt', hoff'⟩
              exact ⟨err, by rw [hstep, herr]; rfl⟩
          · rintro ⟨err, herr⟩
            rw [hstep] at herr
            cases hrest : executeCalc rest df with
            | error err' =>
              obtain ⟨nt', hnt', hoff'⟩ := (ih.1).mpr ⟨err', hrest⟩
              exact ⟨nt', by simp [hnt'], hoff'⟩
            | ok out' =>
              rw [hrest] at herr
              exact absurd herr (by simp [Except.map])
        · intro err herr
          rw [hstep] at herr
          cases hrest : executeCalc rest df with
          | error err' =>
            rw [hrest] at herr
            have herr2 : err' = err := by
              simpa [Except.map] using herr
            obtain ⟨nt', hnt', hname', hoff'⟩ := ih.2.1 err (by rw [hrest, ← herr2])
            exact ⟨nt', by simp [hnt'], hname', hoff'⟩
          | ok out' =>
            rw [hrest] at herr
            exact absurd herr (by simp [Except.map])
        · intro out hout
          rw [hstep] at hout
          cases hrest : executeCalc rest df with
          | error err' =>
            rw [hrest] at hout
            exact absurd hout (by simp [Except.map])
          | ok out' =>
            rw [hrest] at hout
            have hout2 : c :: out' = out := by
              simpa [Except.map] using hout
            obtain ⟨hmap', hmem'⟩ := ih.2.2 out' hrest
            refine ⟨?_, ?_⟩
            · rw [← hout2, List.map_cons, hmap', hcname, hdt]
            · intro c' hc'
              rw [← hout2] at hc'
              rcases List.mem_cons.mp hc' with rfl | hc'
              · exact hcmem
              · exact hmem' c' hc'
      · have herr : executeCalc ((n, t) :: rest) df = Except.error (.mismatch n c.dtype t) :=
          executeCalc_of_checkSchema_some _ _ _ (checkSchema_cons_some_ne n t rest df c hf hdt)
        have hoff : offendingCol df (n, t) := Or.inr ⟨c, hcmem, hcname, hdt⟩
        refine ⟨?_, ?_, ?_⟩
        · exact ⟨fun _ => ⟨_, herr⟩, fun _ => ⟨(n, t), by simp, hoff⟩⟩
        · intro err h2
          rw [herr] at h2
          injection h2 with h3
          exact ⟨(n, t), by simp, by rw [← h3]; rfl, hoff⟩
        · intro out hout
          rw [herr] at hout
          exact absurd hout (by simp)

/-- Witness for C4: a two-column schema against a calculated frame holding
an extra scratch column, in scrambled order. -/
theorem execute_schema_contract_witness :
    ((([⟨"SCRATCH", .int64, []⟩, ⟨"TICKER", .utf8, []⟩, ⟨"CLOSE", .float64, []⟩] : List PCol).map
        PCol.name).Nodup) ∧
    (((∃ nt ∈ ([("CLOSE", DType.float64), ("TICKER", DType.utf8)] : List (String × DType)),
        offendingCol [⟨"SCRATCH", .int64, []⟩, ⟨"TICKER", .utf8, []⟩, ⟨"CLOSE", .float64, []⟩] nt) ↔
      ∃ err, executeCalc [("CLOSE", DType.float64), ("TICKER", DType.utf8)]
          [⟨"SCRATCH", .int64, []⟩, ⟨"TICKER", .utf8, []⟩, ⟨"CLOSE", .float64, []⟩]
        = Except.error err) ∧
    (∀ err, executeCalc [("CLOSE", DType.float64), ("TICKER", DType.utf8)]
          [⟨"SCRATCH", .int64, []⟩, ⟨"TICKER", .utf8, []⟩, ⟨"CLOSE", .float64, []⟩]
        = Except.error err →
      ∃ nt ∈ ([("CLOSE", DType.float64), ("TICKER", DType.utf8)] : List (String × DType)),
        nt.1 = err.col ∧
        offendingCol [⟨"SCRATCH", .int64, []⟩, ⟨"TICKER", .utf8, []⟩, ⟨"CLOSE", .float64, []⟩] nt) ∧
    (∀ out, executeCalc [("CLOSE", DType.float64), ("TICKER", DType.utf8)]
          [⟨"SCRATCH", .int64, []⟩, ⟨"TICKER", .utf8, []⟩, ⟨"CLOSE", .float64, []⟩]
        = Except.ok out →
      out.map (fun c => (c.name, c.dtype)) = [("CLOSE", DType.float64), ("TICKER", DType.utf8)] ∧
      ∀ c ∈ out, c ∈ ([⟨"SCRATCH", .int64, []⟩, ⟨"TICKER", .utf8, []⟩, ⟨"CLOSE", .float64, []⟩] : List PCol))) :=
  ⟨by decide,
    execute_schema_contract [("CLOSE", DType.float64), ("TICKER", DType.utf8)]
      [⟨"SCRATCH", .int64, []⟩, ⟨"TICKER", .utf8, []⟩, ⟨"CLOSE", .float64, []⟩] (by decide)⟩

end TSA
